import Mathlib

/-!
Verification model of the python-parampy repository.

The definitions below are shallow embeddings of the code in `src/parampy`
(`units.pyx`, `quantities.pyx`, `parameters.pyx`).  Python dictionaries are
modelled as insertion-ordered association lists, Python numbers (floats and
`Fraction`s) as rationals, and Python exceptions as `Except` results.  Each
definition's doc comment names the source function it embeds.
-/

namespace ParamPy

/-- Python `d.get(k, 0)` over an insertion-ordered association list (first
match wins, as for a dict with unique keys). -/
def dget {α : Type} [DecidableEq α] (d : List (α × ℚ)) (k : α) : ℚ :=
  match d.find? (fun kv => decide (kv.1 = k)) with
  | some kv => kv.2
  | none => 0

/-- Python `d[k] = v`: replace the value at the first occurrence of `k`, or
append a fresh entry (dicts preserve insertion order). -/
def dset {α : Type} [DecidableEq α] (d : List (α × ℚ)) (k : α) (v : ℚ) : List (α × ℚ) :=
  match d with
  | [] => [(k, v)]
  | kv :: rest => if kv.1 = k then (k, v) :: rest else kv :: dset rest k v

/-- Python `del d[k]`: drop the entry for `k` (first occurrence). -/
def dremove {α : Type} [DecidableEq α] (d : List (α × ℚ)) (k : α) : List (α × ℚ) :=
  match d with
  | [] => []
  | kv :: rest => if kv.1 = k then rest else kv :: dremove rest k

/-- Sum of all values stored under key `k` (coincides with `dget` when the
keys are unique). -/
def dtotal {α : Type} [DecidableEq α] (d : List (α × ℚ)) (k : α) : ℚ :=
  ((d.filter (fun kv => decide (kv.1 = k))).map Prod.snd).sum

/-- Value-weighted sum over a dictionary.  Used to state the dimension
bookkeeping lemmas. -/
def wsum {α : Type} (d : List (α × ℚ)) (w : α → ℚ) : ℚ :=
  (d.map (fun kv => kv.2 * w kv.1)).sum

/-- `Unit` (units.pyx): a named unit with a scale factor `rel` relative to the
catalog basis and a sparse dimension vector. -/
structure UnitT where
  name : String
  rel : ℚ
  dims : List (String × ℚ)
deriving DecidableEq

/-- `Units` (units.pyx): a compound unit expression, a mapping from `Unit`
to rational exponent. -/
structure UnitsT where
  units : List (UnitT × ℚ)
deriving DecidableEq

/-- One step of `Units.__mul_units`: `target[unit] = target.get(unit, 0) +
power`, deleting the entry when the result is zero. -/
def addEntry (t : List (UnitT × ℚ)) (u : UnitT) (p : ℚ) : List (UnitT × ℚ) :=
  let v := dget t u + p
  if v = 0 then dremove t u else dset t u v

/-- `Units.__mul_units` (units.pyx line 986): combine exponent maps
additively, dropping zero-exponent entries. -/
def mulUnits (t additive : List (UnitT × ℚ)) : List (UnitT × ℚ) :=
  additive.foldl (fun t up => addEntry t up.1 up.2) t

/-- `Units.__mul__` (units.pyx line 1002), for a `Units` right operand. -/
def UnitsT.mul (a b : UnitsT) : UnitsT :=
  ⟨mulUnits a.units b.units⟩

/-- `Units.__pow__` (units.pyx line 1030): scale every exponent by the given
rational power (zero-exponent entries are kept, unlike for `__mul__`). -/
def UnitsT.pow (a : UnitsT) (r : ℚ) : UnitsT :=
  ⟨a.units.map (fun up => (up.1, up.2 * r))⟩

/-- Inner loop of `Units.dimensions` for one constituent unit:
`dimensions[key] = dimensions.get(key, 0) + power * order`. -/
def dimAccUnit (d : List (String × ℚ)) (udims : List (String × ℚ)) (power : ℚ) :
    List (String × ℚ) :=
  udims.foldl (fun d kv => dset d kv.1 (dget d kv.1 + power * kv.2)) d

/-- `Units.dimensions` (units.pyx line 918): weighted sum over constituents of
each unit's dimension vector times its exponent, zero entries dropped. -/
def UnitsT.dimensions (U : UnitsT) : List (String × ℚ) :=
  let d := U.units.foldl (fun d up => dimAccUnit d up.1.dims up.2) []
  d.filter (fun kv => decide (kv.2 ≠ 0))

/-- Rational power with an integer exponent; fractional exponents (which are
real-valued in the source) are outside the embedded fragment and mapped to 0. -/
def ratPow (v : ℚ) (p : ℚ) : ℚ :=
  if p.den = 1 then v ^ p.num else 0

/-- `Units.rel` (units.pyx line 938): product of each constituent unit's `rel`
raised to its exponent. -/
def UnitsT.rel (U : UnitsT) : ℚ :=
  U.units.foldl (fun r up => r * ratPow up.1.rel up.2) 1

/-! ### Dictionary lemmas -/

theorem dget_nil {α : Type} [DecidableEq α] (k : α) : dget ([] : List (α × ℚ)) k = 0 := rfl

theorem dget_cons {α : Type} [DecidableEq α] (kv : α × ℚ) (d : List (α × ℚ)) (k : α) :
    dget (kv :: d) k = if kv.1 = k then kv.2 else dget d k := by
  simp only [dget, List.find?]
  by_cases h : kv.1 = k <;> simp [h]

theorem dget_dset {α : Type} [DecidableEq α] (d : List (α × ℚ)) (k : α) (v : ℚ) (k' : α) :
    dget (dset d k v) k' = if k = k' then v else dget d k' := by
  induction d with
  | nil => by_cases h : k = k' <;> simp [dset, dget_cons, dget_nil, h]
  | cons kv rest ih =>
    by_cases hk : kv.1 = k
    · by_cases h : k = k' <;> simp [dset, hk, dget_cons, h, hk ▸ h]
    · simp only [dset, hk, if_false]
      by_cases h : kv.1 = k'
      · have : ¬ k = k' := fun he => hk (he ▸ h)
        simp [dget_cons, h, this]
      · simp [dget_cons, h, ih]

theorem dtotal_nil {α : Type} [DecidableEq α] (k : α) : dtotal ([] : List (α × ℚ)) k = 0 := rfl

theorem dtotal_cons {α : Type} [DecidableEq α] (kv : α × ℚ) (d : List (α × ℚ)) (k : α) :
    dtotal (kv :: d) k = (if kv.1 = k then kv.2 else 0) + dtotal d k := by
  by_cases h : kv.1 = k <;> simp [dtotal, List.filter, h]

theorem wsum_nil {α : Type} (w : α → ℚ) : wsum ([] : List (α × ℚ)) w = 0 := rfl

theorem wsum_cons {α : Type} (kv : α × ℚ) (d : List (α × ℚ)) (w : α → ℚ) :
    wsum (kv :: d) w = kv.2 * w kv.1 + wsum d w := by
  simp [wsum]

theorem dset_cons {α : Type} [DecidableEq α] (kv : α × ℚ) (d : List (α × ℚ)) (k : α) (v : ℚ) :
    dset (kv :: d) k v = if kv.1 = k then (k, v) :: d else kv :: dset d k v := rfl

theorem dremove_cons {α : Type} [DecidableEq α] (kv : α × ℚ) (d : List (α × ℚ)) (k : α) :
    dremove (kv :: d) k = if kv.1 = k then d else kv :: dremove d k := rfl

theorem wsum_dset {α : Type} [DecidableEq α] (d : List (α × ℚ)) (k : α) (v : ℚ) (w : α → ℚ) :
    wsum (dset d k v) w = wsum d w + (v - dget d k) * w k := by
  induction d with
  | nil => simp [dset, wsum_cons, wsum_nil, dget_nil]
  | cons kv rest ih =>
    rw [dset_cons]
    by_cases hk : kv.1 = k
    · rw [if_pos hk, wsum_cons, wsum_cons, dget_cons, if_pos hk, hk]
      ring
    · rw [if_neg hk, wsum_cons, wsum_cons, ih, dget_cons, if_neg hk]
      ring

theorem wsum_dremove {α : Type} [DecidableEq α] (d : List (α × ℚ)) (k : α) (w : α → ℚ) :
    wsum (dremove d k) w = wsum d w - dget d k * w k := by
  induction d with
  | nil => simp [dremove, wsum_nil, dget_nil]
  | cons kv rest ih =>
    rw [dremove_cons]
    by_cases hk : kv.1 = k
    · rw [if_pos hk, wsum_cons, dget_cons, if_pos hk, hk]
      ring
    · rw [if_neg hk, wsum_cons, wsum_cons, ih, dget_cons, if_neg hk]
      ring

theorem wsum_addEntry (t : List (UnitT × ℚ)) (u : UnitT) (p : ℚ) (w : UnitT → ℚ) :
    wsum (addEntry t u p) w = wsum t w + p * w u := by
  unfold addEntry
  by_cases h : dget t u + p = 0
  · have hp : p = -dget t u := by linarith
    simp [h, wsum_dremove, hp]
    ring
  · rw [if_neg h, wsum_dset]
    ring

theorem wsum_mulUnits (t add : List (UnitT × ℚ)) (w : UnitT → ℚ) :
    wsum (mulUnits t add) w = wsum t w + wsum add w := by
  induction add generalizing t with
  | nil => simp [mulUnits, wsum_nil]
  | cons kv rest ih =>
    simp only [mulUnits, List.foldl_cons] at *
    rw [ih, wsum_addEntry, wsum_cons]
    ring

theorem wsum_pow (a : UnitsT) (r : ℚ) (w : UnitT → ℚ) :
    wsum (a.pow r).units w = r * wsum a.units w := by
  cases a with
  | mk us =>
    induction us with
    | nil => simp [UnitsT.pow, wsum_nil]
    | cons kv rest ih =>
      simp only [UnitsT.pow, List.map_cons, wsum_cons] at *
      rw [ih]
      ring

/-! ### Key/Nodup bookkeeping for the dimension accumulator -/

theorem keys_dset {α : Type} [DecidableEq α] (d : List (α × ℚ)) (k : α) (v : ℚ) :
    ((dset d k v).map Prod.fst) = if k ∈ d.map Prod.fst then d.map Prod.fst
      else d.map Prod.fst ++ [k] := by
  induction d with
  | nil => simp [dset]
  | cons kv rest ih =>
    by_cases hk : kv.1 = k
    · subst hk
      simp [dset]
    · have hne : ¬ k = kv.1 := fun he => hk he.symm
      simp only [dset, hk, if_false, List.map_cons, ih, List.mem_cons]
      by_cases hmem : k ∈ rest.map Prod.fst
      · simp [hmem, hne]
      · simp [hmem, hne]

theorem nodup_keys_dset {α : Type} [DecidableEq α] (d : List (α × ℚ)) (k : α) (v : ℚ)
    (h : (d.map Prod.fst).Nodup) : ((dset d k v).map Prod.fst).Nodup := by
  rw [keys_dset]
  by_cases hmem : k ∈ d.map Prod.fst
  · simpa [hmem] using h
  · simp only [hmem, if_false]
    exact List.Nodup.append h (List.nodup_singleton k) (by simpa using hmem)

theorem nodup_keys_dimAccUnit (d : List (String × ℚ)) (udims : List (String × ℚ)) (p : ℚ)
    (h : (d.map Prod.fst).Nodup) : ((dimAccUnit d udims p).map Prod.fst).Nodup := by
  induction udims generalizing d with
  | nil => simpa [dimAccUnit] using h
  | cons kv rest ih =>
    simp only [dimAccUnit, List.foldl_cons] at *
    exact ih _ (nodup_keys_dset _ _ _ h)

theorem dget_not_mem {α : Type} [DecidableEq α] (d : List (α × ℚ)) (k : α)
    (h : k ∉ d.map Prod.fst) : dget d k = 0 := by
  induction d with
  | nil => rfl
  | cons kv rest ih =>
    simp only [List.map_cons, List.mem_cons] at h
    push_neg at h
    have : ¬ kv.1 = k := fun he => h.1 he.symm
    rw [dget_cons, if_neg this]
    exact ih h.2

theorem dget_filter_nonzero {α : Type} [DecidableEq α] (d : List (α × ℚ)) (k : α)
    (h : (d.map Prod.fst).Nodup) :
    dget (d.filter (fun kv => decide (kv.2 ≠ 0))) k = dget d k := by
  induction d with
  | nil => rfl
  | cons kv rest ih =>
    simp only [List.map_cons, List.nodup_cons] at h
    rw [List.filter_cons]
    by_cases hz : kv.2 = 0
    · have hb : (decide (kv.2 ≠ 0)) = false := by simp [hz]
      rw [hb, if_neg Bool.false_ne_true, dget_cons]
      by_cases hk : kv.1 = k
      · subst hk
        have hmem : kv.1 ∉ (rest.filter (fun kv => decide (kv.2 ≠ 0))).map Prod.fst := by
          intro hc
          apply h.1
          rcases List.mem_map.mp hc with ⟨x, hx, hfst⟩
          exact hfst ▸ List.mem_map_of_mem Prod.fst (List.mem_of_mem_filter hx)
        rw [if_pos rfl, hz]
        exact dget_not_mem _ _ hmem
      · rw [if_neg hk]
        exact ih h.2
    · have hb : (decide (kv.2 ≠ 0)) = true := by simp [hz]
      rw [hb, if_pos rfl, dget_cons, dget_cons]
      by_cases hk : kv.1 = k
      · simp [hk]
      · simp only [hk, if_false]
        exact ih h.2

theorem dget_dimAccUnit (d : List (String × ℚ)) (udims : List (String × ℚ)) (p : ℚ) (k : String) :
    dget (dimAccUnit d udims p) k = dget d k + p * dtotal udims k := by
  induction udims generalizing d with
  | nil => simp [dimAccUnit, dtotal_nil]
  | cons kv rest ih =>
    simp only [dimAccUnit, List.foldl_cons] at *
    rw [ih, dget_dset, dtotal_cons]
    by_cases hk : kv.1 = k
    · simp [hk]
      ring
    · simp [hk]

theorem dget_dimfold (us : List (UnitT × ℚ)) (d : List (String × ℚ)) (k : String) :
    dget (us.foldl (fun d up => dimAccUnit d up.1.dims up.2) d) k
      = dget d k + wsum us (fun u => dtotal u.dims k) := by
  induction us generalizing d with
  | nil => simp [wsum_nil]
  | cons kv rest ih =>
    simp only [List.foldl_cons]
    rw [ih, dget_dimAccUnit, wsum_cons]
    ring

theorem nodup_keys_dimfold (us : List (UnitT × ℚ)) (d : List (String × ℚ))
    (h : (d.map Prod.fst).Nodup) :
    (((us.foldl (fun d up => dimAccUnit d up.1.dims up.2) d)).map Prod.fst).Nodup := by
  induction us generalizing d with
  | nil => simpa using h
  | cons kv rest ih =>
    simp only [List.foldl_cons]
    exact ih _ (nodup_keys_dimAccUnit _ _ _ h)

/-- The computed dimension vector, read back with default 0, is the weighted
sum of the constituents' dimension entries. -/
theorem dget_dimensions (U : UnitsT) (k : String) :
    dget U.dimensions k = wsum U.units (fun u => dtotal u.dims k) := by
  unfold UnitsT.dimensions
  rw [dget_filter_nonzero _ _ (nodup_keys_dimfold _ _ (by simp))]
  rw [dget_dimfold]
  simp [dget_nil]

/-- C8: for every two Units objects `a` and `b` and every pair of rational
exponents `p` and `q`, the dimension vector of `a^p * b^q` equals the
entrywise sum of `p` times `a`'s dimension vector and `q` times `b`'s
dimension vector, and zero-valued entries are absent from the result. -/
theorem claim_C8_dimension_additivity (a b : UnitsT) (p q : ℚ) :
    (∀ k, dget ((UnitsT.mul (a.pow p) (b.pow q)).dimensions) k
        = p * dget a.dimensions k + q * dget b.dimensions k)
    ∧ ∀ kv ∈ (UnitsT.mul (a.pow p) (b.pow q)).dimensions, kv.2 ≠ 0 := by
  constructor
  · intro k
    rw [dget_dimensions, dget_dimensions, dget_dimensions]
    show wsum (mulUnits (a.pow p).units (b.pow q).units) _ = _
    rw [wsum_mulUnits, wsum_pow, wsum_pow]
  · intro kv hkv
    unfold UnitsT.dimensions at hkv
    simp only [List.mem_filter] at hkv
    simpa using hkv.2

/-- Concrete metre unit used by witnesses. -/
def metreU : UnitT := ⟨"m", 1, [("length", 1)]⟩

/-- Concrete kilometre unit used by witnesses (scale 1000 relative to the
metre basis). -/
def kmU : UnitT := ⟨"km", 1000, [("length", 1)]⟩

/-- Concrete second unit used by witnesses. -/
def secondU : UnitT := ⟨"s", 1, [("time", 1)]⟩

/-- Compound units `m` as a Units value. -/
def metreUnits : UnitsT := ⟨[(metreU, 1)]⟩

/-- Compound units `km` as a Units value. -/
def kmUnits : UnitsT := ⟨[(kmU, 1)]⟩

/-- Compound units `s` as a Units value. -/
def secondUnits : UnitsT := ⟨[(secondU, 1)]⟩

/-- Evaluation of the compound dimension vector of `m^2 * s^-1`, used by the
C8 witness. -/
theorem dims_m2_per_s_eval :
    (UnitsT.mul (metreUnits.pow 2) (secondUnits.pow (-1))).dimensions
      = [("length", 2), ("time", -1)] := by
  norm_num +decide [UnitsT.dimensions, UnitsT.mul, mulUnits, addEntry, dget, dset, dremove,
    dimAccUnit, UnitsT.pow, metreUnits, secondUnits, metreU, secondU, List.filter, List.find?]

/-- C8 witness: the additivity theorem applied at `a = m`, `b = s`,
`p = 2`, `q = -1`, checked on the `length` dimension, together with a
concrete check that the zero-free conjunct applies to the entry
`("length", 2)` of the result. -/
theorem claim_C8_dimension_additivity_witness :
    (dget ((UnitsT.mul (metreUnits.pow 2) (secondUnits.pow (-1))).dimensions) "length"
        = 2 * dget metreUnits.dimensions "length"
          + (-1) * dget secondUnits.dimensions "length")
    ∧ ("length", (2 : ℚ)) ∈ (UnitsT.mul (metreUnits.pow 2) (secondUnits.pow (-1))).dimensions
    ∧ (2 : ℚ) ≠ 0 :=
  ⟨(claim_C8_dimension_additivity metreUnits secondUnits 2 (-1)).1 "length",
   by simp [dims_m2_per_s_eval],
   (claim_C8_dimension_additivity metreUnits secondUnits 2 (-1)).2 ("length", 2)
     (by simp [dims_m2_per_s_eval])⟩

/-! ### Unit conversion: `UnitDispenser.scale` and `Units.scale` -/

/-- Exceptions raised by the embedded code (errors.py / builtin Python
exceptions). -/
inductive PyErr where
  | unitInvalid
  | unitConversion
  | quantityValue
  | quantityCoercion
  | parameterInvalid
  | parameterRecursion
  | parameterNotInvertible
  | parameterOverSpecified
  | scalingUnitInvalid
  | scalingDimensionInvalid
  | parameterOutsideBounds
  | valueError
  | attributeError
  | indexError
  | outOfFuel
deriving DecidableEq

/-- Python dict `d.get(k)`, `None` when the key is missing. -/
def olookup {α : Type} [DecidableEq α] (d : List (α × ℚ)) (k : α) : Option ℚ :=
  (d.find? (fun kv => decide (kv.1 = k))).map Prod.snd

/-- Python `==` on two dicts (with unique keys): the same keys mapped to the
same values. -/
def pyDictEq (d1 d2 : List (String × ℚ)) : Bool :=
  d1.all (fun kv => olookup d2 kv.1 == some kv.2)
    && d2.all (fun kv => olookup d1 kv.1 == some kv.2)

/-- A scaling rule registered by `UnitDispenser.add_scaling`: a numeric
scaling between two dimension vectors (context-parametrised scaling
functions are outside the numeric fragment embedded here). -/
structure ScalingRule where
  dimFrom : List (String × ℚ)
  dimTo : List (String × ℚ)
  scaling : ℚ
deriving DecidableEq

/-- The slice of `UnitDispenser` state consulted by `Units.scale`: the
per-context scaling rules (`_scalings`), the active context
(`_context_current`, `none` when no context is set) and the per-dimension
basis units (`basis()`). -/
structure Dispenser where
  scalings : List (Option String × List ScalingRule)
  contextCurrent : Option String
  basis : List (String × UnitT)
deriving DecidableEq

/-- The `context` argument of `scale`: Python `False` (use the active
context) or an explicit context name / `None`. -/
inductive CtxSel where
  | active
  | named (c : Option String)
deriving DecidableEq

/-- The rules stored under one context key of `_scalings` (an absent key
behaves like an empty rule list). -/
def ctxRules (disp : Dispenser) (c : Option String) : List ScalingRule :=
  match disp.scalings.find? (fun e => decide (e.1 = c)) with
  | some e => e.2
  | none => []

/-- The rule scan inside `UnitDispenser.scale`: the first rule matching the
dimension pair forward yields `scaling`, backward yields `1/scaling`. -/
def scanScalings (rules : List ScalingRule) (dimFrom dimTo : List (String × ℚ)) : Option ℚ :=
  match rules with
  | [] => none
  | r :: rest =>
    if pyDictEq dimFrom r.dimFrom && pyDictEq dimTo r.dimTo then some r.scaling
    else if pyDictEq dimFrom r.dimTo && pyDictEq dimTo r.dimFrom then some (1 / r.scaling)
    else scanScalings rest dimFrom dimTo

/-- `UnitDispenser.scale` (units.pyx line 383): resolve `False` to the
active context, scan that context's rules, fall back to the global `None`
context, else raise `ValueError`. -/
def Dispenser.scale (disp : Dispenser) (dimFrom dimTo : List (String × ℚ)) (ctx : CtxSel) :
    Except PyErr ℚ :=
  let c : Option String := match ctx with
    | .active => disp.contextCurrent
    | .named c => c
  match scanScalings (ctxRules disp c) dimFrom dimTo with
  | some s => .ok s
  | none =>
    match c with
    | some _ =>
      match scanScalings (ctxRules disp none) dimFrom dimTo with
      | some s => .ok s
      | none => .error .valueError
    | none => .error .valueError

/-- `len(set(dims.items()) & set(dims_other.items()))` for dicts with unique
keys: the number of key-value pairs present in both. -/
def interCount (d1 d2 : List (String × ℚ)) : ℕ :=
  (d1.filter (fun kv => olookup d2 kv.1 == some kv.2)).length

/-- `Units.scale` (units.pyx line 875): try a context scaling between the
two dimension vectors; absent one, require the dimension dictionaries to
agree (the set-intersection size test) and return the ratio of the `rel`
factors.  The per-pair memo only replays previously computed results and is
dropped from the model; returned values are unchanged. -/
def UnitsT.scale (disp : Dispenser) (self other : UnitsT) (ctx : CtxSel) : Except PyErr ℚ :=
  let dims := self.dimensions
  let dimsOther := other.dimensions
  match Dispenser.scale disp dims dimsOther ctx with
  | .ok s => .ok (self.rel / other.rel * s)
  | .error _ =>
    if interCount dims dimsOther < max dims.length dimsOther.length then
      .error .unitConversion
    else
      .ok (self.rel / other.rel)

/-! ### Lemmas relating the intersection-size test to dict equality -/

theorem nodup_keys_dimensions (U : UnitsT) : (U.dimensions.map Prod.fst).Nodup := by
  have h1 := nodup_keys_dimfold U.units [] (by simp)
  unfold UnitsT.dimensions
  exact ((List.filter_sublist _).map Prod.fst).nodup h1

theorem olookup_mem {α : Type} [DecidableEq α] {d : List (α × ℚ)} {k : α} {v : ℚ}
    (h : olookup d k = some v) : (k, v) ∈ d := by
  unfold olookup at h
  cases hf : d.find? (fun kv => decide (kv.1 = k)) with
  | none => simp [hf] at h
  | some kv =>
    rw [hf] at h
    simp only [Option.map_some', Option.some.injEq] at h
    have hk := List.find?_some hf
    simp only [decide_eq_true_eq] at hk
    have hm := List.mem_of_find?_eq_some hf
    have : kv = (k, v) := by
      cases kv
      simp_all
    exact this ▸ hm

theorem olookup_of_mem {α : Type} [DecidableEq α] {d : List (α × ℚ)}
    (h : (d.map Prod.fst).Nodup) {kv : α × ℚ} (hm : kv ∈ d) :
    olookup d kv.1 = some kv.2 := by
  induction d with
  | nil => simp at hm
  | cons hd tl ih =>
    simp only [List.map_cons, List.nodup_cons] at h
    rcases List.mem_cons.mp hm with he | ht
    · subst he
      simp [olookup, List.find?]
    · have hne : ¬ hd.1 = kv.1 := by
        intro hc
        exact h.1 (hc ▸ List.mem_map_of_mem Prod.fst ht)
      simpa [olookup, List.find?, hne] using ih h.2 ht

theorem length_filter_eq_iff {α : Type} (l : List α) (p : α → Bool) :
    (l.filter p).length = l.length ↔ ∀ a ∈ l, p a = true := by
  induction l with
  | nil => simp
  | cons hd tl ih =>
    rw [List.filter_cons]
    by_cases hp : p hd = true
    · rw [if_pos hp]
      simp only [List.length_cons]
      rw [Nat.add_right_cancel_iff, ih]
      constructor
      · intro hall a ha
        rcases List.mem_cons.mp ha with he | ht
        · exact he ▸ hp
        · exact hall a ht
      · intro hall a ha
        exact hall a (List.mem_cons_of_mem hd ha)
    · rw [if_neg hp]
      constructor
      · intro hlen
        exfalso
        have hle := List.length_filter_le p tl
        rw [List.length_cons] at hlen
        omega
      · intro hall
        exact absurd (hall hd (List.mem_cons_self hd tl)) hp

theorem interCount_ge_iff (d1 d2 : List (String × ℚ))
    (h1 : (d1.map Prod.fst).Nodup) (h2 : (d2.map Prod.fst).Nodup) :
    (max d1.length d2.length ≤ interCount d1 d2) ↔ pyDictEq d1 d2 = true := by
  have hd1 : d1.Nodup := h1.of_map
  have hd2 : d2.Nodup := h2.of_map
  constructor
  · intro hge
    rw [max_le_iff] at hge
    have hle : interCount d1 d2 ≤ d1.length := List.length_filter_le _ _
    have hflen : (d1.filter (fun kv => olookup d2 kv.1 == some kv.2)).length = d1.length := by
      unfold interCount at hge hle
      omega
    have hall1 : ∀ kv ∈ d1, olookup d2 kv.1 = some kv.2 := by
      intro kv hkv
      have := (length_filter_eq_iff d1 _).mp hflen kv hkv
      simpa using this
    -- the filtered list is a Nodup list of members of d2, at least as long as d2
    set F := d1.filter (fun kv => olookup d2 kv.1 == some kv.2) with hF
    have hFnodup : F.Nodup := (List.filter_sublist _).nodup hd1
    have hFsub : ∀ kv ∈ F, kv ∈ d2 := by
      intro kv hkv
      have hp := List.of_mem_filter hkv
      exact olookup_mem (by simpa using hp)
    have hsetF : F.toFinset ⊆ d2.toFinset := by
      intro x hx
      exact List.mem_toFinset.mpr (hFsub x (List.mem_toFinset.mp hx))
    have hcards : d2.toFinset.card ≤ F.toFinset.card := by
      rw [List.toFinset_card_of_nodup hFnodup, List.toFinset_card_of_nodup hd2]
      exact hge.2
    have hFeq : F.toFinset = d2.toFinset := Finset.eq_of_subset_of_card_le hsetF hcards
    have hall2 : ∀ kv ∈ d2, olookup d1 kv.1 = some kv.2 := by
      intro kv hkv
      have hxF : kv ∈ F := by
        have := hFeq ▸ List.mem_toFinset.mpr hkv
        exact List.mem_toFinset.mp this
      exact olookup_of_mem h1 (List.mem_of_mem_filter hxF)
    unfold pyDictEq
    rw [Bool.and_eq_true, List.all_eq_true, List.all_eq_true]
    exact ⟨fun kv hkv => by simp [hall1 kv hkv], fun kv hkv => by simp [hall2 kv hkv]⟩
  · intro heq
    unfold pyDictEq at heq
    rw [Bool.and_eq_true, List.all_eq_true, List.all_eq_true] at heq
    have hall1 : ∀ kv ∈ d1, olookup d2 kv.1 = some kv.2 := by
      intro kv hkv
      have := heq.1 kv hkv
      simpa using this
    have hall2 : ∀ kv ∈ d2, olookup d1 kv.1 = some kv.2 := by
      intro kv hkv
      have := heq.2 kv hkv
      simpa using this
    have hfull : interCount d1 d2 = d1.length := by
      unfold interCount
      rw [length_filter_eq_iff]
      intro kv hkv
      simp [hall1 kv hkv]
    have hsub : d2.toFinset ⊆ d1.toFinset := by
      intro x hx
      exact List.mem_toFinset.mpr (olookup_mem (hall2 x (List.mem_toFinset.mp hx)))
    have hlen2 : d2.length ≤ d1.length := by
      calc d2.length = d2.toFinset.card := (List.toFinset_card_of_nodup hd2).symm
        _ ≤ d1.toFinset.card := Finset.card_le_card hsub
        _ ≤ d1.length := List.toFinset_card_le d1
    rw [hfull]
    exact max_le le_rfl hlen2

/-- C7: for every two Units `u` and `v` drawn from the same catalog `disp`,
`u.scale(v)` returns a number exactly when the two dimension vectors are
equal (Python dict equality) or the active/queried context defines an
explicit scaling between them (`UnitDispenser.scale` succeeds); in every
other case it raises `UnitConversion`. -/
theorem claim_C7_scale_success_iff (disp : Dispenser) (u v : UnitsT) (ctx : CtxSel) :
    ((∃ s, UnitsT.scale disp u v ctx = .ok s) ↔
      (pyDictEq u.dimensions v.dimensions = true
        ∨ ∃ s, Dispenser.scale disp u.dimensions v.dimensions ctx = .ok s))
    ∧ ((¬ (pyDictEq u.dimensions v.dimensions = true
        ∨ ∃ s, Dispenser.scale disp u.dimensions v.dimensions ctx = .ok s)) →
      UnitsT.scale disp u v ctx = .error .unitConversion) := by
  have hiff := interCount_ge_iff u.dimensions v.dimensions
    (nodup_keys_dimensions u) (nodup_keys_dimensions v)
  cases hD : Dispenser.scale disp u.dimensions v.dimensions ctx with
  | ok s =>
    constructor
    · constructor
      · intro _
        exact Or.inr ⟨s, rfl⟩
      · intro _
        refine ⟨u.rel / v.rel * s, ?_⟩
        simp [UnitsT.scale, hD]
    · intro hc
      exact absurd (Or.inr ⟨s, rfl⟩) hc
  | error e =>
    have hsc : UnitsT.scale disp u v ctx =
        (if interCount u.dimensions v.dimensions
            < max u.dimensions.length v.dimensions.length then
          Except.error PyErr.unitConversion
        else Except.ok (u.rel / v.rel)) := by
      simp [UnitsT.scale, hD]
    by_cases hlt : interCount u.dimensions v.dimensions
        < max u.dimensions.length v.dimensions.length
    · have hne : ¬ pyDictEq u.dimensions v.dimensions = true := by
        intro hp
        have := hiff.mpr hp
        omega
      refine ⟨⟨?_, ?_⟩, ?_⟩
      · rintro ⟨s, hs⟩
        rw [hsc, if_pos hlt] at hs
        cases hs
      · rintro (hp | ⟨s, hs⟩)
        · exact absurd hp hne
        · cases hs
      · intro _
        rw [hsc, if_pos hlt]
    · have hp : pyDictEq u.dimensions v.dimensions = true := hiff.mp (by omega)
      refine ⟨⟨?_, ?_⟩, ?_⟩
      · intro _
        exact Or.inl hp
      · intro _
        exact ⟨u.rel / v.rel, by rw [hsc, if_neg hlt]⟩
      · intro hc
        exact absurd (Or.inl hp) hc

/-- Evaluation of the metre dimension vector, used by witnesses. -/
theorem metre_dims_eval : metreUnits.dimensions = [("length", 1)] := by
  norm_num +decide [UnitsT.dimensions, dimAccUnit, dget, dset, metreUnits, metreU,
    List.filter, List.find?]

/-- Evaluation of the second dimension vector, used by witnesses. -/
theorem second_dims_eval : secondUnits.dimensions = [("time", 1)] := by
  norm_num +decide [UnitsT.dimensions, dimAccUnit, dget, dset, secondUnits, secondU,
    List.filter, List.find?]

/-- Evaluation of the kilometre dimension vector, used by witnesses. -/
theorem km_dims_eval : kmUnits.dimensions = [("length", 1)] := by
  norm_num +decide [UnitsT.dimensions, dimAccUnit, dget, dset, kmUnits, kmU,
    List.filter, List.find?]

/-- A catalog with no context scalings and no active context, used by
witnesses. -/
def dispEmpty : Dispenser := ⟨[], none, [("length", metreU), ("time", secondU)]⟩

/-- C7 witness: with an empty catalog context, converting metres to seconds
has neither equal dimension vectors nor a context scaling, and the theorem
yields the `UnitConversion` error there. -/
theorem claim_C7_scale_success_iff_witness :
    (¬ (pyDictEq metreUnits.dimensions secondUnits.dimensions = true
        ∨ ∃ s, Dispenser.scale dispEmpty metreUnits.dimensions secondUnits.dimensions
            CtxSel.active = .ok s))
    ∧ UnitsT.scale dispEmpty metreUnits secondUnits CtxSel.active
        = .error .unitConversion := by
  have hne : ¬ (pyDictEq metreUnits.dimensions secondUnits.dimensions = true
      ∨ ∃ s, Dispenser.scale dispEmpty metreUnits.dimensions secondUnits.dimensions
          CtxSel.active = .ok s) := by
    simp [metre_dims_eval, second_dims_eval, pyDictEq, olookup, Dispenser.scale,
      ctxRules, scanScalings, dispEmpty, List.find?]
  exact ⟨hne, (claim_C7_scale_success_iff dispEmpty metreUnits secondUnits CtxSel.active).2 hne⟩

/-! ### Quantity arithmetic (quantities.pyx) -/

/-- `Quantity` (quantities.pyx): a numeric value tagged with a Units and an
absolute/relative flag. -/
structure QuantityT where
  value : ℚ
  units : UnitsT
  absolute : Bool
deriving DecidableEq

/-- `Units(None)`: the empty (dimensionless) unit map given to
`Quantity(n, None)` when a bare number is coerced. -/
def emptyUnits : UnitsT := ⟨[]⟩

/-- `Quantity.__add__` (quantities.pyx line 234) for a bare-number right
operand `n`: the literal zero is returned immediately via
`self._new(self.value, self.units)` (whose `absolute` defaults to `False`);
any other number is coerced to a dimensionless Quantity and unit-scaled
into the left operand's units. -/
def qaddNum (disp : Dispenser) (q : QuantityT) (n : ℚ) : Except PyErr QuantityT :=
  if n = 0 then .ok ⟨q.value, q.units, false⟩
  else
    match UnitsT.scale disp emptyUnits q.units CtxSel.active with
    | .ok scale => .ok ⟨q.value + scale * n, q.units, q.absolute⟩
    | .error e => .error e

/-- `Quantity.__sub__` (quantities.pyx line 255) for a bare-number right
operand, mirroring `__add__`. -/
def qsubNum (disp : Dispenser) (q : QuantityT) (n : ℚ) : Except PyErr QuantityT :=
  if n = 0 then .ok ⟨q.value, q.units, false⟩
  else
    match UnitsT.scale disp emptyUnits q.units CtxSel.active with
    | .ok scale => .ok ⟨q.value - scale * n, q.units, q.absolute⟩
    | .error e => .error e

/-- When neither dict-equal dimensions nor a context scaling apply,
`Units.scale` raises `UnitConversion`.  Shared by the C9 reasoning. -/
theorem unitsScale_error_of (disp : Dispenser) (u v : UnitsT) (ctx : CtxSel)
    (h : ¬ (pyDictEq u.dimensions v.dimensions = true
      ∨ ∃ s, Dispenser.scale disp u.dimensions v.dimensions ctx = .ok s)) :
    UnitsT.scale disp u v ctx = .error .unitConversion := by
  push_neg at h
  obtain ⟨hne, hno⟩ := h
  cases hD : Dispenser.scale disp u.dimensions v.dimensions ctx with
  | ok s => exact absurd hD (hno s)
  | error e =>
    have hiff := interCount_ge_iff u.dimensions v.dimensions
      (nodup_keys_dimensions u) (nodup_keys_dimensions v)
    have hlt : interCount u.dimensions v.dimensions
        < max u.dimensions.length v.dimensions.length := by
      by_contra hge
      exact hne (hiff.mp (le_of_not_lt hge))
    have hsc : UnitsT.scale disp u v ctx =
        (if interCount u.dimensions v.dimensions
            < max u.dimensions.length v.dimensions.length then
          Except.error PyErr.unitConversion
        else Except.ok (u.rel / v.rel)) := by
      simp [UnitsT.scale, hD]
    rw [hsc, if_pos hlt]

/-- C9: for every Quantity `q` (dimensionless or not), `q + 0` and `q - 0`
return a Quantity with the same value and units as `q`; the literal zero is
special-cased as an additive identity, while adding any other bare number
triggers the dimension-compatibility conversion, which fails with
`UnitConversion` whenever `q`'s units are not convertible from the
dimensionless units (no equal dimension vectors and no context scaling). -/
theorem claim_C9_add_sub_zero (disp : Dispenser) (q : QuantityT) :
    (∃ q', qaddNum disp q 0 = .ok q' ∧ q'.value = q.value ∧ q'.units = q.units)
    ∧ (∃ q', qsubNum disp q 0 = .ok q' ∧ q'.value = q.value ∧ q'.units = q.units)
    ∧ ∀ n : ℚ, n ≠ 0 →
      (¬ (pyDictEq emptyUnits.dimensions q.units.dimensions = true
          ∨ ∃ s, Dispenser.scale disp emptyUnits.dimensions q.units.dimensions
              CtxSel.active = .ok s)) →
      qaddNum disp q n = .error .unitConversion := by
  refine ⟨⟨⟨q.value, q.units, false⟩, ?_, rfl, rfl⟩,
    ⟨⟨q.value, q.units, false⟩, ?_, rfl, rfl⟩, ?_⟩
  · simp [qaddNum]
  · simp [qsubNum]
  · intro n hn hno
    have herr := unitsScale_error_of disp emptyUnits q.units CtxSel.active hno
    simp [qaddNum, hn, herr]

/-- A concrete non-dimensionless Quantity (5 metres) for the C9 witness. -/
def fiveMetres : QuantityT := ⟨5, metreUnits, false⟩

/-- C9 witness: `5 m + 0` and `5 m - 0` succeed with value and units
preserved, while `5 m + 3` (a nonzero bare number) raises `UnitConversion`
under the empty catalog. -/
theorem claim_C9_add_sub_zero_witness :
    ((∃ q', qaddNum dispEmpty fiveMetres 0 = .ok q'
        ∧ q'.value = fiveMetres.value ∧ q'.units = fiveMetres.units)
      ∧ (∃ q', qsubNum dispEmpty fiveMetres 0 = .ok q'
        ∧ q'.value = fiveMetres.value ∧ q'.units = fiveMetres.units))
    ∧ qaddNum dispEmpty fiveMetres 3 = .error .unitConversion := by
  have h := claim_C9_add_sub_zero dispEmpty fiveMetres
  refine ⟨⟨h.1, h.2.1⟩, h.2.2 3 (by norm_num) ?_⟩
  show ¬ (pyDictEq emptyUnits.dimensions fiveMetres.units.dimensions = true ∨ _)
  have hemp : emptyUnits.dimensions = [] := rfl
  simp [fiveMetres, metre_dims_eval, hemp, pyDictEq, olookup,
    Dispenser.scale, ctxRules, scanScalings, dispEmpty, List.find?]

/-! ### Parameter store: definitions, `__check_function` and `__set`
(parameters.pyx) -/

/-- Python dict `d.get(k)` for arbitrary value types. -/
def aget {κ β : Type} [DecidableEq κ] (l : List (κ × β)) (k : κ) : Option β :=
  (l.find? (fun kv => decide (kv.1 = k))).map Prod.snd

/-- Python `d[k] = v` for arbitrary value types. -/
def aset {κ β : Type} [DecidableEq κ] (l : List (κ × β)) (k : κ) (v : β) : List (κ × β) :=
  match l with
  | [] => [(k, v)]
  | kv :: rest => if kv.1 = k then (k, v) :: rest else kv :: aset rest k v

/-- Python `del d[k]` (no-op when absent, matching a guarded delete). -/
def aremove {κ β : Type} [DecidableEq κ] (l : List (κ × β)) (k : κ) : List (κ × β) :=
  match l with
  | [] => []
  | kv :: rest => if kv.1 = k then rest else kv :: aremove rest k

/-- Result of calling a user-supplied parameter function: a number, or a
list/tuple of numbers (as returned by the inverse direction). -/
inductive PyVal where
  | num (v : ℚ)
  | tuple (vs : List ℚ)

/-- A stored parameter definition (`Parameters.__parameters` values): a
constant Quantity or a callable.  The embedded store is the dimensionless
fragment, so constants carry their scaled value; for a callable the
dependency-name list (read off the argument names by
`__function_getargs`) is stored alongside the function. -/
inductive PDef where
  | const (v : ℚ)
  | fn (deps : List String) (impl : List ℚ → PyVal)

/-- `list.remove(x)`: drop the first occurrence. -/
def removeFirst (l : List String) (x : String) : List String :=
  match l with
  | [] => []
  | a :: rest => if a = x then rest else a :: removeFirst rest x

/-- `Parameters.__check_function` (parameters.pyx line 1031): walk the
dependency graph of a candidate function, carrying the `forbidden` name
list, and raise `ParameterRecursion` when a dependency lands back in it.
The declared invertible self-reference (the parameter's own name among the
arguments) is removed before the walk.  `fargs` is the candidate's argument
list; recursion depth is bounded by fuel (the source recursion is bounded
by the acyclic stored definitions). -/
def checkFunction : ℕ → List (String × PDef) → String → List String → List String →
    Except PyErr Unit
  | 0, _, _, _, _ => .error .outOfFuel
  | fuel + 1, defs, param, fargs, forbidden =>
    let args := removeFirst fargs param
    if forbidden.any (fun a => args.contains a) then .error .parameterRecursion
    else
      let forb := forbidden ++ [param]
      args.foldlM
        (fun _ arg =>
          match aget defs arg with
          | some (.fn deps _) => checkFunction fuel defs arg deps forb
          | _ => pure ()) ()

/-- A value passed to `Parameters.__set`: a bare number (stored as a
constant) or a callable with its dependency names (stored as a Function).
The dimensionless fragment: `(value, unit)` pairs are not embedded. -/
inductive SetVal where
  | num (v : ℚ)
  | fnv (deps : List String) (impl : List ℚ → PyVal)

/-- The mutable store state touched by `__set`: definitions, unit specs,
and the two per-name memos it invalidates.  The dependency/superior caches
(`__cache_deps`/`__cache_sups`, wholly rebuilt from the definitions) are
derived and omitted. -/
structure StoreState where
  parameters : List (String × PDef)
  parameters_spec : List (String × UnitsT)
  cache_scaled : List (String × ℚ)
  cache_funcs : List (String × Option (ℚ × List ℚ))

/-- `Parameters.__is_valid_param`: the anchored regex
`^[A-Za-z][_a-zA-Z0-9]*$` (with `_` also allowed first when
`allowUnderscore`). -/
def isValidParam (allowUnderscore : Bool) (s : String) : Bool :=
  match s.data with
  | [] => false
  | c :: rest =>
    (c.isAlpha || (allowUnderscore && c == '_'))
      && rest.all (fun ch => ch.isAlpha || ch.isDigit || ch == '_')

/-- The assignment loop of `Parameters.__set`: per parameter, invalidate
that name's function memo and scaled memo, then store the checked function
(with dimensionless declared units) or the constant.  An exception carries
the state mutated so far, matching Python's in-place semantics. -/
def setLoop (fuel : ℕ) (st : StoreState) :
    List (String × SetVal) → Except (PyErr × StoreState) StoreState
  | [] => .ok st
  | (param, val) :: rest =>
    let st1 : StoreState := { st with
      cache_funcs :=
        if (aget st.cache_funcs param).isSome then aset st.cache_funcs param none
        else st.cache_funcs,
      cache_scaled := aremove st.cache_scaled param }
    match val with
    | .fnv deps impl =>
      match checkFunction fuel st1.parameters param deps [] with
      | .error e => .error (e, st1)
      | .ok _ =>
        setLoop fuel { st1 with
          parameters := aset st1.parameters param (.fn deps impl),
          parameters_spec := aset st1.parameters_spec param emptyUnits } rest
    | .num v =>
      setLoop fuel { st1 with
        parameters := aset st1.parameters param (.const v),
        parameters_spec := aset st1.parameters_spec param emptyUnits } rest

/-- `Parameters.__set` (parameters.pyx line 938): validate every supplied
name (leading underscores forbidden) before any assignment, then run the
assignment loop. -/
def setParams (fuel : ℕ) (st : StoreState) (kwargs : List (String × SetVal)) :
    Except (PyErr × StoreState) StoreState :=
  if (kwargs.map Prod.fst).any (fun p => !isValidParam false p) then
    .error (.parameterInvalid, st)
  else
    setLoop fuel st kwargs

theorem except_error_bind {ε α β : Type} (e : ε) (f : α → Except ε β) :
    (Except.error e : Except ε α) >>= f = Except.error e := rfl

theorem aget_cons {κ β : Type} [DecidableEq κ] (kv : κ × β) (l : List (κ × β)) (k : κ) :
    aget (kv :: l) k = if kv.1 = k then some kv.2 else aget l k := by
  simp only [aget, List.find?]
  by_cases h : kv.1 = k <;> simp [h]

theorem aget_map_range {β : Type} (f : ℕ → String × β) (l : List ℕ) (m : ℕ)
    (hm : m ∈ l) (hinj : ∀ i ∈ l, (f i).1 = (f m).1 → i = m) :
    aget (l.map f) (f m).1 = some (f m).2 := by
  induction l with
  | nil => simp at hm
  | cons a rest ih =>
    rw [List.map_cons, aget_cons]
    by_cases ha : (f a).1 = (f m).1
    · have : a = m := hinj a (List.mem_cons_self a rest) ha
      subst this
      rw [if_pos rfl]
    · rw [if_neg ha]
      have hm' : m ∈ rest := by
        rcases List.mem_cons.mp hm with he | ht
        · exact absurd (he ▸ rfl) ha
        · exact ht
      exact ih hm' (fun i hi h => hinj i (List.mem_cons_of_mem a hi) h)

/-- Chain parameter names `y`, `yy`, `yyy`, ... (pairwise distinct and
distinct from `x`), used to state cycle rejection for every chain length. -/
def chainName (i : ℕ) : String :=
  ⟨List.replicate (i + 1) 'y'⟩

/-- A representative function body for chain definitions. -/
def chainImpl : List ℚ → PyVal :=
  fun args => .num (args.headD 0)

/-- Dependency list of the `i`-th chain parameter: the next chain parameter,
or `x` at the end of the chain. -/
def chainDeps (n i : ℕ) : List String :=
  [if i = n then "x" else chainName (i + 1)]

/-- The store definitions `y_0 = f(y_1), ..., y_n = f(x)`: a functional
dependency chain of length `n+1` from `y_0` down to `x`. -/
def chainDefs (n : ℕ) : List (String × PDef) :=
  (List.range (n + 1)).map (fun i => (chainName i, PDef.fn (chainDeps n i) chainImpl))

theorem chainName_inj {i j : ℕ} (h : chainName i = chainName j) : i = j := by
  have hd : List.replicate (i + 1) 'y' = List.replicate (j + 1) 'y' :=
    congrArg String.data h
  have hlen := congrArg List.length hd
  simp [List.length_replicate] at hlen
  omega

theorem chainName_ne_x (i : ℕ) : chainName i ≠ "x" := by
  intro h
  have hd : List.replicate (i + 1) 'y' = "x".data := congrArg String.data h
  have hm : 'y' ∈ List.replicate (i + 1) 'y' :=
    List.mem_replicate.mpr ⟨Nat.succ_ne_zero i, rfl⟩
  rw [hd] at hm
  have hm' : 'y' ∈ (['x'] : List Char) := hm
  simp at hm'

theorem chainDefs_lookup (n m : ℕ) (hm : m ≤ n) :
    aget (chainDefs n) (chainName m) = some (.fn (chainDeps n m) chainImpl) := by
  have := aget_map_range (fun i => (chainName i, PDef.fn (chainDeps n i) chainImpl))
    (List.range (n + 1)) m (by simp; omega) (fun i _ h => chainName_inj h)
  simpa [chainDefs] using this

theorem chain_check_step (n : ℕ) :
    ∀ (k i fuel : ℕ) (forbidden : List String), i + k = n → k + 1 ≤ fuel →
    "x" ∈ forbidden →
    (∀ s ∈ forbidden, s = "x" ∨ ∃ j, j < i ∧ s = chainName j) →
    checkFunction fuel (chainDefs n) (chainName i) (chainDeps n i) forbidden
      = .error .parameterRecursion := by
  intro k
  induction k with
  | zero =>
    intro i fuel forbidden hik hfuel hx _
    have hin : i = n := by omega
    subst hin
    obtain ⟨fuel', rfl⟩ : ∃ f, fuel = f + 1 := ⟨fuel - 1, by omega⟩
    have hdeps : chainDeps i i = ["x"] := by simp [chainDeps]
    have hargs : removeFirst ["x"] (chainName i) = ["x"] := by
      simp [removeFirst, (chainName_ne_x i).symm]
    have hany : forbidden.any (fun a => (["x"] : List String).contains a) = true :=
      List.any_eq_true.mpr ⟨"x", hx, by simp⟩
    simp only [checkFunction, hdeps, hargs, hany, if_pos]
  | succ k ih =>
    intro i fuel forbidden hik hfuel hx hforb
    obtain ⟨fuel', rfl⟩ : ∃ f, fuel = f + 1 := ⟨fuel - 1, by omega⟩
    have hine : i ≠ n := by omega
    have hdeps : chainDeps n i = [chainName (i + 1)] := by simp [chainDeps, hine]
    have hargs : removeFirst [chainName (i + 1)] (chainName i) = [chainName (i + 1)] := by
      have : chainName (i + 1) ≠ chainName i := fun h => by
        have := chainName_inj h
        omega
      simp [removeFirst, this]
    have hany : forbidden.any (fun a => ([chainName (i + 1)] : List String).contains a)
        = false := by
      rw [List.any_eq_false]
      intro s hs
      rcases hforb s hs with hsx | ⟨j, hj, hsj⟩
      · subst hsx
        simp [(chainName_ne_x (i + 1)).symm]
      · subst hsj
        have : chainName j ≠ chainName (i + 1) := fun h => by
          have := chainName_inj h
          omega
        simp [this]
    have hbody := ih (i + 1) fuel' (forbidden ++ [chainName i]) (by omega) (by omega)
      (List.mem_append_left _ hx)
      (by
        intro s hs
        rcases List.mem_append.mp hs with hold | hnew
        · rcases hforb s hold with hsx | ⟨j, hj, hsj⟩
          · exact Or.inl hsx
          · exact Or.inr ⟨j, by omega, hsj⟩
        · have : s = chainName i := by simpa using hnew
          exact Or.inr ⟨i, by omega, this⟩)
    have hget := chainDefs_lookup n (i + 1) (by omega)
    simp only [checkFunction, hdeps, hargs, hany, Bool.false_eq_true, if_false,
      List.foldlM, hget, hbody, except_error_bind]

/-- C4: if `y_0` is (transitively) a function chain `y_0 → y_1 → ... → y_n → x`
of any length, then assigning `x` a function of `y_0` raises
`ParameterRecursion` and leaves the definitions map unchanged; a function
whose only back-reference is its own declared invertible self-reference
slot passes the check. -/
theorem claim_C4_recursive_cycle_rejection (n fuel : ℕ) (st : StoreState)
    (hfuel : n + 2 ≤ fuel) (hst : st.parameters = chainDefs n) :
    checkFunction fuel st.parameters "x" [chainName 0] [] = .error .parameterRecursion
    ∧ (∃ st', setParams fuel st [("x", .fnv [chainName 0] chainImpl)]
        = .error (.parameterRecursion, st')
      ∧ st'.parameters = st.parameters)
    ∧ checkFunction fuel [] "x" ["y", "x"] [] = .ok () := by
  obtain ⟨fuel', rfl⟩ : ∃ f, fuel = f + 1 := ⟨fuel - 1, by omega⟩
  have hargs : removeFirst [chainName 0] "x" = [chainName 0] := by
    simp [removeFirst, chainName_ne_x 0]
  have hbody := chain_check_step n n 0 fuel' ["x"] (by omega) (by omega) (by simp)
    (by
      intro s hs
      simp at hs
      exact Or.inl hs)
  have hget := chainDefs_lookup n 0 (Nat.zero_le n)
  have hmain : checkFunction (fuel' + 1) (chainDefs n) "x" [chainName 0] []
      = .error .parameterRecursion := by
    simp only [checkFunction, hargs, List.any_nil, Bool.false_eq_true, if_false,
      List.foldlM, hget, List.nil_append, hbody, except_error_bind]
  refine ⟨hst ▸ hmain, ?_, ?_⟩
  · refine ⟨{ st with
      cache_funcs :=
        if (aget st.cache_funcs "x").isSome then aset st.cache_funcs "x" none
        else st.cache_funcs,
      cache_scaled := aremove st.cache_scaled "x" }, ?_, rfl⟩
    have hvalid : ((["x"] : List String).any (fun p => !isValidParam false p)) = false := by
      decide
    show setParams (fuel' + 1) st [("x", SetVal.fnv [chainName 0] chainImpl)] = _
    unfold setParams
    simp only [List.map_cons, List.map_nil, hvalid, Bool.false_eq_true, if_false]
    simp only [setLoop, hst, hmain]
  · have hargs2 : removeFirst ["y", "x"] "x" = ["y"] := by decide
    simp only [checkFunction, hargs2, List.any_nil, Bool.false_eq_true, if_false,
      List.foldlM]
    rfl

/-- Concrete empty store for witnesses. -/
def stEmpty : StoreState := ⟨[], [], [], []⟩

/-- Concrete store holding the chain `y_0 = f(y_1), y_1 = f(x)`. -/
def stChain1 : StoreState := ⟨chainDefs 1, [], [], []⟩

/-- C4 witness: the rejection theorem applied to the length-2 chain with
fuel 10. -/
theorem claim_C4_recursive_cycle_rejection_witness :
    checkFunction 10 stChain1.parameters "x" [chainName 0] []
      = .error .parameterRecursion :=
  (claim_C4_recursive_cycle_rejection 1 10 stChain1 (by decide) rfl).1

/-- C10: batch assignment validates every supplied name before assigning
anything: whenever any name in the batch fails the identifier check,
`__set` raises `ParameterInvalid` with the store (definitions included)
untouched; a leading underscore always fails that check. -/
theorem claim_C10_batch_validation_atomic (fuel : ℕ) (st : StoreState)
    (kwargs : List (String × SetVal))
    (h : ∃ p ∈ kwargs.map Prod.fst, isValidParam false p = false) :
    setParams fuel st kwargs = .error (.parameterInvalid, st)
    ∧ ∀ cs : List Char, isValidParam false (String.mk ('_' :: cs)) = false := by
  constructor
  · unfold setParams
    have hc : (kwargs.map Prod.fst).any (fun p => !isValidParam false p) = true := by
      rcases h with ⟨p, hp, hv⟩
      exact List.any_eq_true.mpr ⟨p, hp, by simp [hv]⟩
    rw [if_pos hc]
  · intro cs
    simp [isValidParam]

/-- C10 witness: a batch containing the valid name `ok` and the invalid
name `_bad` is rejected as a whole, leaving the empty store unchanged. -/
theorem claim_C10_batch_validation_atomic_witness :
    setParams 10 stEmpty [("ok", .num 1), ("_bad", .num 2)]
      = .error (.parameterInvalid, stEmpty) :=
  (claim_C10_batch_validation_atomic 10 stEmpty [("ok", .num 1), ("_bad", .num 2)]
    ⟨"_bad", by decide, by decide⟩).1

/-! ### Parameter retrieval and override processing (parameters.pyx) -/

/-- `Parameters.__get_param` (parameters.pyx line 602) restricted to the
dimensionless fragment with plain (non-underscored) names, no bounds and
caching disabled (the defaults): an override wins; a stored function is
evaluated forward per `__eval_function` (dropping its declared invertible
self-reference and recursively resolving every remaining dependency); a
stored constant returns its scaled value; an unknown name falls through to
`__eval`, which raises `ParameterInvalid` for a bare name.  A forward
result that is a tuple undergoes the `(value, unit)` coercion, which is
outside the dimensionless fragment and maps to `QuantityCoercion`. -/
def getParam : ℕ → List (String × PDef) → String → List (String × ℚ) → Except PyErr ℚ
  | 0, _, _, _ => .error .outOfFuel
  | fuel + 1, defs, name, kwargs =>
    match aget kwargs name with
    | some v => .ok v
    | none =>
      match aget defs name with
      | some (.fn deps impl) =>
        let deps' := if deps.getLast? = some name then deps.dropLast else deps
        match deps'.foldlM
            (fun acc d => Except.map (fun v => acc ++ [v]) (getParam fuel defs d kwargs))
            ([] : List ℚ) with
        | .error e => .error e
        | .ok args =>
          match impl args with
          | .num v => .ok v
          | .tuple _ => .error .quantityCoercion
      | some (.const v) => .ok v
      | none => .error .parameterInvalid

/-- The inverse branch of `Parameters.__eval_function` (parameters.pyx line
734): when the parameter itself is overridden, require the last dependency
to be the parameter's own name, resolve every dependency (the overridden
parameter included), call the function, coerce a bare-number result to a
one-tuple, and zip the result with the non-self dependencies (a too-short
result raises IndexError). -/
def evalInverse (fuel : ℕ) (defs : List (String × PDef)) (param : String)
    (kwargs : List (String × ℚ)) : Except PyErr (List (String × ℚ)) :=
  match aget defs param with
  | some (.fn deps impl) =>
    if deps.getLast? = some param then
      match deps.foldlM
          (fun acc d => Except.map (fun v => acc ++ [v]) (getParam fuel defs d kwargs))
          ([] : List ℚ) with
      | .error e => .error e
      | .ok args =>
        let rs := match impl args with
          | .num v => [v]
          | .tuple vs => vs
        if deps.dropLast.length ≤ rs.length then .ok (deps.dropLast.zip rs)
        else .error .indexError
    else .error .parameterNotInvertible
  | _ => .error .parameterInvalid

/-- Python `pam[0] == "_"` on an override name (override names are
nonempty; the empty string is mapped to `false`). -/
def headIsUnderscore (s : String) : Bool :=
  match s.data with
  | [] => false
  | c :: _ => c == '_'

/-- `Except.ok` bound into a continuation steps to the continuation. -/
theorem except_ok_bind {ε α β : Type} (a : α) (f : α → Except ε β) :
    (Except.ok a : Except ε α) >>= f = f a := rfl

/-- Python `d.update(u)`. -/
def dictUpdate {κ β : Type} [DecidableEq κ] (d u : List (κ × β)) : List (κ × β) :=
  u.foldl (fun d kv => aset d kv.1 kv.2) d

/-- The over-specification test inside `__process_override`: an inverted
dependency value disagrees with a directly supplied override, or with a
value recovered by an earlier inversion. -/
def hasConflict (vals kwargs new : List (String × ℚ)) : Bool :=
  vals.any (fun kv =>
    (match aget kwargs kv.1 with
     | some w => decide (kv.2 ≠ w)
     | none => false)
    || (match aget new kv.1 with
        | some w => decide (kv.2 ≠ w)
        | none => false))

/-- The ratification loop of `__process_override`: for each restricted
override naming a stored function, invert it when its own name is among
its dependencies (failing with `ParameterOverSpecified` on conflicting
recovered values), or emit the inconsistency warning and skip when it is
not invertible. -/
def overridePhase (fuel : ℕ) (defs : List (String × PDef))
    (kwargs : List (String × ℚ)) :
    List String → List (String × ℚ) → Except PyErr (List (String × ℚ))
  | [], new => .ok new
  | pam :: rest, new =>
    match aget defs pam with
    | some (.fn deps _) =>
      if deps.contains pam then
        match evalInverse fuel defs pam kwargs with
        | .error e => .error e
        | .ok vals =>
          if hasConflict vals kwargs new then .error .parameterOverSpecified
          else overridePhase fuel defs kwargs rest (dictUpdate new vals)
      else overridePhase fuel defs kwargs rest new
    | _ => overridePhase fuel defs kwargs rest new

/-- `Parameters.__process_override` (parameters.pyx line 639) for numeric
override values (with numeric values the function-ordering pre-pass
collects no dependencies and is a no-op): reject underscored override
names, ratify the restricted overrides through the inversion loop, merge
newly recovered values into the overrides and recurse on them. -/
def processOverride : ℕ → List (String × PDef) → List (String × ℚ) →
    Option (List String) → Except PyErr (List (String × ℚ))
  | 0, _, _, _ => .error .outOfFuel
  | fuel + 1, defs, kwargs, restrict =>
    let r := restrict.getD (kwargs.map Prod.fst)
    if r.isEmpty then .ok kwargs
    else if r.any (fun pam => headIsUnderscore pam) then .error .valueError
    else
      match overridePhase fuel defs kwargs r [] with
      | .error e => .error e
      | .ok new =>
        if new.isEmpty then .ok kwargs
        else processOverride fuel defs (dictUpdate kwargs new) (some (new.map Prod.fst))

/-- `Parameters.__get` (parameters.pyx line 549) for a single plain name
with numeric overrides and no bounds configured: process the overrides,
then retrieve the parameter. -/
def storeGet (fuel : ℕ) (defs : List (String × PDef)) (name : String)
    (kwargs : List (String × ℚ)) : Except PyErr ℚ :=
  match processOverride fuel defs kwargs none with
  | .error e => .error e
  | .ok kwargs2 => getParam fuel defs name kwargs2

/-- The lazily stored definition `y = lambda x: x**2`. -/
def sqImpl : List ℚ → PyVal :=
  fun args => .num ((args.headD 0) ^ 2)

/-- The C6 store: `p.set_raw(dict(y=lambda x: x**2)); p.set(dict(x=3))`. -/
def defsC6 : List (String × PDef) :=
  [("y", .fn ["x"] sqImpl), ("x", .const 3)]

set_option maxHeartbeats 1000000 in
/-- C6: with `y = lambda x: x**2` stored lazily and `x = 3` stored as a
constant, `get('y')` returns 9; `get('y', x=5)` returns 25; and a
subsequent `get('x')` still returns 3 (retrieval never writes to the
definitions map, which is passed by value throughout). -/
theorem claim_C6_lazy_function_retrieval :
    storeGet 10 defsC6 "y" [] = .ok 9
    ∧ storeGet 10 defsC6 "y" [("x", 5)] = .ok 25
    ∧ storeGet 10 defsC6 "x" [] = .ok 3 := by
  refine ⟨?_, ?_, ?_⟩ <;>
    norm_num +decide [storeGet, processOverride, overridePhase, getParam, evalInverse,
      hasConflict, dictUpdate, aget, aset, defsC6, sqImpl, headIsUnderscore, List.find?,
      List.foldlM, Except.map, except_ok_bind, except_error_bind]

/-- The C5 invertible definition `z = h(x, y, z=None)`: forward `x + y`,
inverse recovering `x = z/2`, `y = z/2`. -/
def hImpl : List ℚ → PyVal := fun args =>
  match args with
  | [x, y] => .num (x + y)
  | [_, _, z] => .tuple [z / 2, z / 2]
  | _ => .num 0

/-- The C5 dependent definition `y = k(x) = 2*x`. -/
def kImpl : List ℚ → PyVal :=
  fun args => .num (2 * args.headD 0)

/-- The C5 store: `z = h(x, y, z=None)` invertible, `y = k(x)`, `x = 3`. -/
def defsC5 : List (String × PDef) :=
  [("z", .fn ["x", "y", "z"] hImpl), ("y", .fn ["x"] kImpl), ("x", .const 3)]

set_option maxHeartbeats 1000000 in
/-- C5: overriding the invertible `z` inverts it; when the inversion's
recovered `x` conflicts with a directly supplied `x`, override processing
raises `ParameterOverSpecified`; when the resolved values are consistent
(or `x` is not separately overridden), it succeeds and propagates the
recovered dependency values into the override set. -/
theorem claim_C5_override_consistency :
    processOverride 10 defsC5 [("z", 10), ("x", 9)] none
      = .error .parameterOverSpecified
    ∧ processOverride 10 defsC5 [("z", 10), ("x", 5)] none
      = .ok [("z", 10), ("x", 5), ("y", 5)]
    ∧ processOverride 10 defsC5 [("z", 10)] none
      = .ok [("z", 10), ("x", 5), ("y", 5)] := by
  refine ⟨?_, ?_, ?_⟩ <;>
    norm_num +decide [processOverride, overridePhase, getParam, evalInverse,
      hasConflict, dictUpdate, aget, aset, defsC5, hImpl, kImpl, headIsUnderscore,
      List.find?, List.foldlM, Except.map, except_ok_bind, except_error_bind]

/-! ### Parameter bounds (parameters.pyx `__check_bounds`) -/

/-- The `Bounds` record (parameters.pyx line 2015) in the dimensionless
fragment: the bound pairs and the error/clip/inclusive policy. -/
structure BoundsT where
  param : String
  blist : List (ℚ × ℚ)
  error : Bool
  clip : Bool
  inclusive : Bool
deriving DecidableEq

/-- The clip branch of `Parameters.__check_bounds` (parameters.pyx line
1339) for a Quantity input (`scaled` is False).  The source builds
`v = np.array(blist)[np.where(dlist == np.min(dlist))]` — an ndarray
whatever that boolean comparison selects — and then returns
`v.value / self.__unit_scaling(v.unit)`.  An ndarray has no attribute
`value` (nor `unit`; the Quantity attribute is spelt `units`), so this
branch raises `AttributeError` instead of returning the nearest bound
edge. -/
def checkBoundsClip (b : BoundsT) (value : ℚ) : Except PyErr ℚ :=
  let edges := b.blist.foldr (fun bd acc => bd.1 :: bd.2 :: acc) []
  let _dlist := edges.map (fun e => |e - value|)
  .error .attributeError

/-- `Parameters.__check_bounds` (parameters.pyx line 1322) for a Quantity
input in the dimensionless fragment: return the value when some bound pair
contains it (inclusively or exclusively per policy); otherwise clip (see
`checkBoundsClip`), raise `ParameterOutsideBounds` when `error` is set, or
warn and return the value anyway. -/
def checkBounds (b : BoundsT) (value : ℚ) : Except PyErr ℚ :=
  if b.inclusive then
    if b.blist.any (fun bd => decide (bd.1 ≤ value) && decide (bd.2 ≥ value)) then .ok value
    else if b.clip then checkBoundsClip b value
    else if b.error then .error .parameterOutsideBounds
    else .ok value
  else
    if b.blist.any (fun bd => decide (bd.1 < value) && decide (bd.2 > value)) then .ok value
    else if b.clip then checkBoundsClip b value
    else if b.error then .error .parameterOutsideBounds
    else .ok value

/-- Bound `[0, 100]` with `clip=True` (and the default `error=True`,
`inclusive=True`), as set by `set_bounds({x: (0,100)}, clip=True)`. -/
def boundClip : BoundsT := ⟨"x", [(0, 100)], true, true, true⟩

/-- Bound `[0, 100]` with `clip=False, error=True`. -/
def boundErr : BoundsT := ⟨"x", [(0, 100)], true, false, true⟩

/-- C2 (behaviour at the claimed inputs): with `clip=False, error=True` the
value 150 raises `ParameterOutsideBounds` and an in-range value is returned
unchanged, as claimed; but with `clip=True` the value 150 raises
`AttributeError` from the broken clip branch instead of yielding the
claimed 100. -/
theorem claim_C2_bounds_clip_divergence :
    checkBounds boundClip 150 = .error .attributeError
    ∧ checkBounds boundErr 150 = .error .parameterOutsideBounds
    ∧ checkBounds boundErr 50 = .ok 50
    ∧ checkBounds boundClip 150 ≠ .ok 100 := by
  have h1 : checkBounds boundClip 150 = .error .attributeError := by
    norm_num [checkBounds, checkBoundsClip, boundClip]
  refine ⟨h1, ?_, ?_, ?_⟩
  · norm_num [checkBounds, boundErr]
  · norm_num [checkBounds, boundErr]
  · rw [h1]
    simp

/-! ### Scoped rollback (parameters.pyx `__enter__` / `__exit__`) -/

/-- The snapshot pushed by `Parameters.__enter__`: copies of the seven
mutable store components. -/
structure Snapshot where
  parameters_spec : List (String × UnitsT)
  parameters : List (String × PDef)
  parameters_bounds : Option (List (String × BoundsT))
  scalings : List (String × QuantityT)
  units : Dispenser
  units_custom : List UnitT
  default_scaled : Bool

/-- The mutable state of a `Parameters` instance relevant to scoped
rollback: the seven snapshot components, the five derived caches, and the
snapshot stack `__context_save`. -/
structure ParametersState where
  parameters_spec : List (String × UnitsT)
  parameters : List (String × PDef)
  parameters_bounds : Option (List (String × BoundsT))
  scalings : List (String × QuantityT)
  units : Dispenser
  units_custom : List UnitT
  default_scaled : Bool
  cache_deps : List (String × List String)
  cache_sups : List (String × List String)
  cache_scaled : List (String × ℚ)
  cache_funcs : List (String × Option (ℚ × List ℚ))
  scaling_cache : List (UnitsT × ℚ)
  context_save : List Snapshot

/-- `Parameters.__enter__` (parameters.pyx line 460): push a copy of the
seven mutable components onto the context stack. -/
def enterScope (p : ParametersState) : ParametersState :=
  { p with context_save := p.context_save ++
      [⟨p.parameters_spec, p.parameters, p.parameters_bounds, p.scalings, p.units,
        p.units_custom, p.default_scaled⟩] }

/-- `Parameters.__exit__` (parameters.pyx line 476): pop the last snapshot,
restore the seven components from it, and clear the dependency, superior,
scaled-value and unit-scaling caches.  The function-result memo
`__cache_funcs` is not among the cleared caches.  Popping an empty stack
raises (IndexError), modelled as `none`. -/
def exitScope (p : ParametersState) : Option ParametersState :=
  match p.context_save.getLast? with
  | none => none
  | some ctx => some
    { parameters_spec := ctx.parameters_spec
      parameters := ctx.parameters
      parameters_bounds := ctx.parameters_bounds
      scalings := ctx.scalings
      units := ctx.units
      units_custom := ctx.units_custom
      default_scaled := ctx.default_scaled
      cache_deps := []
      cache_sups := []
      cache_scaled := []
      cache_funcs := p.cache_funcs
      scaling_cache := []
      context_save := p.context_save.dropLast }

/-- A store whose function-result memo is nonempty, used to exhibit that
scope exit does not clear that memo. -/
def pScopeEx : ParametersState :=
  { parameters_spec := [], parameters := [("x", .const 3)], parameters_bounds := none,
    scalings := [], units := dispEmpty, units_custom := [], default_scaled := true,
    cache_deps := [], cache_sups := [], cache_scaled := [],
    cache_funcs := [("x", some (9, [3]))], scaling_cache := [], context_save := [] }

/-- C3 counterexample: entering and immediately exiting a scope on a store
with a nonempty function-result memo leaves that memo intact, so "exiting
clears all derived caches (... function-result memo ...)" is false. -/
theorem claim_C3_counterexample :
    (exitScope (enterScope pScopeEx)).map (fun s => s.cache_funcs)
      = some [("x", some (9, [3]))]
    ∧ [("x", some ((9 : ℚ), [(3 : ℚ)]))] ≠ ([] : List (String × Option (ℚ × List ℚ))) := by
  constructor
  · rfl
  · simp

/-- C3 amended: for every store and every in-scope mutation that leaves the
context stack itself untouched, exiting restores the seven snapshot
components to their values at entry, clears the dependency, superior,
scaled-value and unit-scaling caches, keeps the function-result memo as it
was at exit time, and pops exactly one stack frame (so nested scopes
restore via the stack). -/
theorem claim_C3_scope_restore (p : ParametersState)
    (m : ParametersState → ParametersState)
    (hm : (m (enterScope p)).context_save = (enterScope p).context_save) :
    ∃ s, exitScope (m (enterScope p)) = some s
      ∧ s.parameters_spec = p.parameters_spec
      ∧ s.parameters = p.parameters
      ∧ s.parameters_bounds = p.parameters_bounds
      ∧ s.scalings = p.scalings
      ∧ s.units = p.units
      ∧ s.units_custom = p.units_custom
      ∧ s.default_scaled = p.default_scaled
      ∧ s.cache_deps = [] ∧ s.cache_sups = [] ∧ s.cache_scaled = []
      ∧ s.scaling_cache = []
      ∧ s.cache_funcs = (m (enterScope p)).cache_funcs
      ∧ s.context_save = p.context_save := by
  have hl : (m (enterScope p)).context_save.getLast?
      = some ⟨p.parameters_spec, p.parameters, p.parameters_bounds, p.scalings, p.units,
          p.units_custom, p.default_scaled⟩ := by
    rw [hm]
    simp [enterScope]
  have hd : (m (enterScope p)).context_save.dropLast = p.context_save := by
    rw [hm]
    simp [enterScope]
  have hres : exitScope (m (enterScope p)) = some
      { parameters_spec := p.parameters_spec
        parameters := p.parameters
        parameters_bounds := p.parameters_bounds
        scalings := p.scalings
        units := p.units
        units_custom := p.units_custom
        default_scaled := p.default_scaled
        cache_deps := []
        cache_sups := []
        cache_scaled := []
        cache_funcs := (m (enterScope p)).cache_funcs
        scaling_cache := []
        context_save := p.context_save } := by
    simp only [exitScope, hl, hd]
  exact ⟨_, hres, rfl, rfl, rfl, rfl, rfl, rfl, rfl, rfl, rfl, rfl, rfl, rfl, rfl⟩

/-- C3 witness: the amended restoration theorem applied to the concrete
store with the identity in-scope mutation. -/
theorem claim_C3_scope_restore_witness :
    ∃ s, exitScope (id (enterScope pScopeEx)) = some s
      ∧ s.parameters_spec = pScopeEx.parameters_spec
      ∧ s.parameters = pScopeEx.parameters
      ∧ s.parameters_bounds = pScopeEx.parameters_bounds
      ∧ s.scalings = pScopeEx.scalings
      ∧ s.units = pScopeEx.units
      ∧ s.units_custom = pScopeEx.units_custom
      ∧ s.default_scaled = pScopeEx.default_scaled
      ∧ s.cache_deps = [] ∧ s.cache_sups = [] ∧ s.cache_scaled = []
      ∧ s.scaling_cache = []
      ∧ s.cache_funcs = (id (enterScope pScopeEx)).cache_funcs
      ∧ s.context_save = pScopeEx.context_save :=
  claim_C3_scope_restore pScopeEx id rfl

/-! ### Non-dimensionalisation and the scaled-value memo (parameters.pyx) -/

/-- `Quantity.__mul__` (quantities.pyx line 279) for a Quantity operand:
multiply values, combine units via the Units algebra, with the absolute
flag as in the source. -/
def qmul (a b : QuantityT) : QuantityT :=
  ⟨a.value * b.value, a.units.mul b.units,
    a.absolute && (pyDictEq a.units.dimensions [] || pyDictEq b.units.dimensions [])⟩

/-- `Quantity.__pow__` (quantities.pyx line 324): raise value and units to
the power (`_new` leaves the result non-absolute). -/
def qpow (a : QuantityT) (p : ℚ) : QuantityT :=
  ⟨ratPow a.value p, a.units.pow p, false⟩

/-- The slice of `Parameters` state driving non-dimensionalisation of
stored constant Quantities: definitions (constants only, as in the C1
scenario), the per-dimension scalings, the unit dispenser, and the two
memos `__cache_scaled` and `__scaling_cache`. -/
structure ScalingStore where
  parameters : List (String × QuantityT)
  scalings : List (String × QuantityT)
  units : Dispenser
  cache_scaled : List (String × ℚ)
  scaling_cache : List (UnitsT × ℚ)
deriving DecidableEq

/-- `Parameters.__basis_scale` (parameters.pyx line 1067): fold over the
unit's dimension vector, multiplying the configured scaling Quantity for
each dimension (defaulting to 1 of the catalog basis unit) raised to the
dimension's exponent.  A dimension without a basis unit raises (KeyError
in the source). -/
def basisScale (p : ScalingStore) : List (String × ℚ) → QuantityT → Except PyErr QuantityT
  | [], acc => .ok acc
  | dp :: rest, acc =>
    match aget p.scalings dp.1 with
    | some q => basisScale p rest (qmul acc (qpow q dp.2))
    | none =>
      match aget p.units.basis dp.1 with
      | some bu => basisScale p rest (qmul acc (qpow ⟨1, ⟨[(bu, 1)]⟩, false⟩ dp.2))
      | none => .error .valueError

/-- `Parameters.__unit_scaling` (parameters.pyx line 1076): memoised
`basis_scale.value * basis_scale.units.scale(unit)`, keyed by the Units
object. -/
def unitScaling (p : ScalingStore) (unit : UnitsT) : Except PyErr (ℚ × ScalingStore) :=
  match aget p.scaling_cache unit with
  | some s => .ok (s, p)
  | none =>
    match basisScale p unit.dimensions ⟨1, emptyUnits, false⟩ with
    | .error e => .error e
    | .ok scaleQ =>
      match UnitsT.scale p.units scaleQ.units unit CtxSel.active with
      | .error e => .error e
      | .ok sc =>
        let scaling := scaleQ.value * sc
        .ok (scaling, { p with scaling_cache := aset p.scaling_cache unit scaling })

/-- The stored-constant scaled-retrieval path of `Parameters.__get_param`
(parameters.pyx line 630), for a name that is stored, not overridden and
unbounded: consult the per-name scaled memo `__cache_scaled`, else divide
the stored Quantity's value by the unit scaling and memoise the result. -/
def getParamScaled (p : ScalingStore) (name : String) : Except PyErr (ℚ × ScalingStore) :=
  match aget p.parameters name with
  | none => .error .parameterInvalid
  | some q =>
    match aget p.cache_scaled name with
    | some v => .ok (v, p)
    | none =>
      match unitScaling p q.units with
      | .error e => .error e
      | .ok (us, p1) =>
        let v := q.value / us
        .ok (v, { p1 with cache_scaled := aset p1.cache_scaled name v })

/-- `Parameters.scaling` (parameters.pyx line 367) setting one dimension:
clear the unit-scaling memo `__scaling_cache` (and nothing else), check
the dimension is known and the supplied scale has dimension vector exactly
that dimension, then store the scaling Quantity.  The scaled-value memo
`__cache_scaled` is not touched. -/
def setScaling (p : ScalingStore) (dim : String) (scale : QuantityT) :
    Except PyErr ScalingStore :=
  let p1 : ScalingStore := { p with scaling_cache := [] }
  if (aget p1.units.basis dim).isSome then
    if pyDictEq scale.units.dimensions [(dim, 1)] then
      .ok { p1 with scalings := aset p1.scalings dim scale }
    else .error .scalingUnitInvalid
  else .error .scalingDimensionInvalid

/-- The C1 catalog: basis length unit `m`; `km` has `rel = 1000`. -/
def catC1 : Dispenser := ⟨[], none, [("length", metreU)]⟩

/-- The C1 store after `x = Quantity(1, km)` under the default scaling. -/
def storeC1 : ScalingStore :=
  ⟨[("x", ⟨1, kmUnits, false⟩)], [], catC1, [], []⟩

/-- The store after the first scaled query of `x`: the scaled value 1000 is
memoised in `__cache_scaled` and the km unit-scaling in
`__scaling_cache`. -/
def storeC1a : ScalingStore :=
  { storeC1 with cache_scaled := [("x", 1000)], scaling_cache := [(kmUnits, 1 / 1000)] }

/-- The store after `scaling(length=(1,'km'))`: the unit-scaling memo is
cleared and the length scaling replaced, but `__cache_scaled` still holds
the stale entry for `x`. -/
def storeC1b : ScalingStore :=
  { storeC1a with
    scaling_cache := []
    scalings := [("length", ⟨1, kmUnits, false⟩)] }

/-- C1 (behaviour at the claimed inputs): with catalog basis metre, the
stored `x = Quantity(1,'km')` first reports scaled value 1000; after
`scaling(length=(1,'km'))` the re-query returns the memoised 1000 — not
the claimed 1 — because `scaling()` clears only the unit-scaling memo and
not the per-name scaled-value memo.  With that memo cleared the same query
returns 1, confirming the stale cache as the cause. -/
theorem claim_C1_scaled_cache_staleness :
    getParamScaled storeC1 "x" = .ok (1000, storeC1a)
    ∧ setScaling storeC1a "length" ⟨1, kmUnits, false⟩ = .ok storeC1b
    ∧ (getParamScaled storeC1b "x").map Prod.fst = .ok 1000
    ∧ (getParamScaled { storeC1b with cache_scaled := [] } "x").map Prod.fst = .ok 1
    ∧ (1000 : ℚ) ≠ 1 := by
  refine ⟨?_, ?_, ?_, ?_, by norm_num⟩
  · norm_num +decide [getParamScaled, unitScaling, basisScale, qmul, qpow, ratPow,
      UnitsT.scale, UnitsT.rel, UnitsT.mul, UnitsT.pow, mulUnits, addEntry,
      UnitsT.dimensions, dimAccUnit, dget, dset, dremove, Dispenser.scale, ctxRules,
      scanScalings, interCount, pyDictEq, olookup, aget, aset, storeC1, storeC1a,
      catC1, kmUnits, kmU, metreU, metreUnits, emptyUnits, List.find?, List.filter]
  · norm_num +decide [setScaling, storeC1a, storeC1b, storeC1, catC1, pyDictEq,
      olookup, aget, aset, UnitsT.dimensions, dimAccUnit, dget, dset, kmUnits, kmU,
      metreU, List.find?, List.filter]
  · norm_num +decide [getParamScaled, aget, storeC1b, storeC1a, storeC1, List.find?,
      Except.map]
  · norm_num +decide [getParamScaled, unitScaling, basisScale, qmul, qpow, ratPow,
      UnitsT.scale, UnitsT.rel, UnitsT.mul, UnitsT.pow, mulUnits, addEntry,
      UnitsT.dimensions, dimAccUnit, dget, dset, dremove, Dispenser.scale, ctxRules,
      scanScalings, interCount, pyDictEq, olookup, aget, aset, storeC1b, storeC1a,
      storeC1, catC1, kmUnits, kmU, metreU, emptyUnits, List.find?, List.filter,
      Except.map]

end ParamPy
